import Mathlib

/-!
Verification of the api-security-gateway hybrid decision pipeline.

This file shallowly embeds the components of the gateway that the
specification describes: the fixed-window rate limiter
(`gateway/security/rate_limiter.py`), the sliding-window event cache
(`gateway/cache/window_store.py`), the deterministic rule engine
(`gateway/decision/rules.py`), the rule/ML correlator
(`gateway/decision/correlate.py`), the synchronous ML inference wrapper
(`gateway/ml/inference.py`), the asynchronous background re-scorer
(`gateway/ml/async_detector.py`), the entropy computation of the feature
extractor (`gateway/analytics/feature_extractor.py`), and the request
orchestrator (`proxy` in `gateway/main.py`).

Modelling conventions:
* Machine floats of the source are modelled as exact rationals (`ℚ`) where
  the source only compares and accumulates them, and as real numbers (`ℝ`)
  for the entropy computation, which involves `log2`.
* Redis state is modelled explicitly: a per-key value plus an optional
  expiry instant; a read at time `now` sees the value only while
  `now < expiresAt`, matching Redis TTL semantics.
* Fallible calls are modelled by explicit parameters: the upstream HTTP
  call yields `Option Nat` (`none` = the `requests.request` call raises),
  and a failure anywhere inside the orchestrator's `try` block is the
  boolean `scoringFails`.
-/

namespace SecGateway

/-- `Decision` enum from `gateway/decision/decision.py`. -/
inductive Decision where
  | ALLOW
  | THROTTLE
  | BLOCK
deriving DecidableEq

/-- `MLLabel` enum from `gateway/ml/labels.py` (values used by
`gateway/ml/inference.py` and `gateway/decision/correlate.py`). -/
inductive MLLabel where
  | NORMAL
  | SUSPICIOUS
  | ANOMALOUS
deriving DecidableEq

/-!  ## Rate limiter — `gateway/security/rate_limiter.py`

`RateLimiter.allow_request` works on the Redis key `rate_limit:<api_key>`:
`GET`; if absent, `SETEX key window_seconds 1` and allow; if the stored
count is `< max_requests`, `INCR` (TTL untouched) and allow; otherwise
deny without touching the state.  The per-key Redis cell is modelled as
`Option RLState`; the key reads as absent once `now` reaches `expiresAt`.
-/

/-- The Redis value backing one `rate_limit:<api_key>` key: the stored
counter together with the instant at which the key's TTL lapses. -/
structure RLState where
  count : ℕ
  expiresAt : ℚ
deriving DecidableEq

/-- One call of `RateLimiter.allow_request` at time `now`, returning the
boolean result and the updated per-key Redis state.  `windowSeconds` is
the `SETEX` TTL in seconds. -/
def allow_request (maxRequests : ℕ) (windowSeconds : ℚ) (st : Option RLState) (now : ℚ) :
    Bool × Option RLState :=
  match st with
  | none => (true, some ⟨1, now + windowSeconds⟩)
  | some s =>
      if now < s.expiresAt then
        if s.count < maxRequests then (true, some ⟨s.count + 1, s.expiresAt⟩)
        else (false, some s)
      else
        (true, some ⟨1, now + windowSeconds⟩)

/-- The stored counter of a rate-limiter cell (0 when the key is absent). -/
def rlCount (st : Option RLState) : ℕ :=
  (st.map RLState.count).getD 0

/-- Iterate `allow_request` over a list of call instants, collecting the
boolean results and threading the Redis state. -/
def runCalls (maxRequests : ℕ) (windowSeconds : ℚ) :
    Option RLState → List ℚ → List Bool × Option RLState
  | st, [] => ([], st)
  | st, t :: ts =>
      let r := allow_request maxRequests windowSeconds st t
      let rest := runCalls maxRequests windowSeconds r.2 ts
      (r.1 :: rest.1, rest.2)

/-!  ## Sliding window cache — `gateway/cache/window_store.py`

`record_events` writes to the Redis key `api_window:<api_key>`:
`ZADD key {event_id: now}` then `ZREMRANGEBYSCORE key 0 (now - 60)` then
`EXPIRE key 70`.  `get_window_events_ids` reads the key
`api_key:<api_key>` with `ZRANGE key 0 -1` (all members, score-ascending,
with no score filtering).  Note the two functions use different key
prefixes — this is exactly what the round-trip theorem below exposes.
-/

/-- `WINDOW_SECONDS` from `gateway/cache/window_store.py`. -/
def WINDOW_SECONDS : ℚ := 60

/-- The modelled Redis store backing the window cache: per key, the
sorted-set members `(event_id, score)` and an optional TTL instant. -/
structure WStore where
  entries : String → List (ℕ × ℚ)
  expiresAt : String → Option ℚ

/-- The empty Redis store. -/
def WStore.empty : WStore := ⟨fun _ => [], fun _ => none⟩

/-- The members visible under `key` at time `now` (an expired key reads
as empty, per Redis TTL semantics). -/
def liveEntries (st : WStore) (key : String) (now : ℚ) : List (ℕ × ℚ) :=
  match st.expiresAt key with
  | some e => if now < e then st.entries key else []
  | none => st.entries key

/-- Insertion into a score-ascending list (stable), used to model the
score-ascending order of `ZRANGE`. -/
def insertByScore (p : ℕ × ℚ) : List (ℕ × ℚ) → List (ℕ × ℚ)
  | [] => [p]
  | q :: qs => if p.2 < q.2 then p :: q :: qs else q :: insertByScore p qs

/-- Sort sorted-set members by score ascending (the order `ZRANGE key 0 -1`
returns). -/
def sortByScore (l : List (ℕ × ℚ)) : List (ℕ × ℚ) :=
  l.foldr insertByScore []

/-- `record_events(api_key, event_id)` at time `now`:
`ZADD` on key `api_window:<api_key>`, then `ZREMRANGEBYSCORE key 0 (now-60)`,
then `EXPIRE key (60 + 10)`. -/
def record_events (st : WStore) (now : ℚ) (api_key : String) (event_id : ℕ) : WStore :=
  let key := "api_window:" ++ api_key
  let base := liveEntries st key now
  let afterAdd := base.filter (fun p => p.1 ≠ event_id) ++ [(event_id, now)]
  let afterTrim := afterAdd.filter (fun p => ¬(0 ≤ p.2 ∧ p.2 ≤ now - WINDOW_SECONDS))
  { entries := fun k => if k = key then afterTrim else st.entries k,
    expiresAt := fun k => if k = key then some (now + WINDOW_SECONDS + 10) else st.expiresAt k }

/-- `get_window_events_ids(api_key)` at time `now`: `ZRANGE key 0 -1` on
the key `api_key:<api_key>` (sic — not the key `record_events` writes). -/
def get_window_events_ids (st : WStore) (now : ℚ) (api_key : String) : List ℕ :=
  let key := "api_key:" ++ api_key
  (sortByScore (liveEntries st key now)).map Prod.fst

/-!  ## Rule engine — `gateway/decision/rules.py` -/

/-- The feature dictionary produced by `extract_features`
(`gateway/analytics/feature_extractor.py`), as consumed by
`evaluate_rules`.  The source passes either the full dictionary or `{}`;
the empty dictionary is modelled as `none` at the call sites.  Float
values are modelled as exact rationals. -/
structure Features where
  total_requests : ℕ
  unique_endpoints : ℕ
  inter_arrivals_variance : ℚ
  requests_per_second : ℚ
  endpoints_entropy : ℚ
  blocked_ratio : ℚ
  throttled_ratio : ℚ
deriving DecidableEq

/-- `evaluate_rules(features)` from `gateway/decision/rules.py`: guard on
missing/empty features, then three threshold rules in order, first match
wins, default `ALLOW`. -/
def evaluate_rules (features : Option Features) : Decision :=
  match features with
  | none => Decision.ALLOW
  | some f =>
      if 6/10 ≤ f.blocked_ratio ∧ 5 ≤ f.total_requests then Decision.BLOCK
      else if 5 < f.requests_per_second then Decision.THROTTLE
      else if 10 ≤ f.unique_endpoints ∧ 5/2 ≤ f.endpoints_entropy then Decision.THROTTLE
      else Decision.ALLOW

/-- The rule engine exactly as claim C7 words it, defined independently of
`evaluate_rules` for the refinement comparison: empty/absent vector →
`ALLOW`; else `blocked_ratio ≥ 0.6 ∧ total_requests ≥ 5` → `BLOCK`; else
`requests_per_second > 5` → `THROTTLE`; else
`unique_endpoints ≥ 10 ∧ endpoints_entropy ≥ 2.5` → `THROTTLE`; else
`ALLOW`. -/
def evaluate_rules_claim (features : Option Features) : Decision :=
  match features with
  | none => Decision.ALLOW
  | some f =>
      if f.blocked_ratio ≥ 6/10 ∧ f.total_requests ≥ 5 then Decision.BLOCK
      else if f.requests_per_second > 5 then Decision.THROTTLE
      else if f.unique_endpoints ≥ 10 ∧ f.endpoints_entropy ≥ 5/2 then Decision.THROTTLE
      else Decision.ALLOW

/-!  ## Correlator — `gateway/decision/correlate.py` -/

/-- The correlation payload returned by `correlate_decisions`. -/
structure Correlation where
  agreement : String
  confidence : String
  summary : String
deriving DecidableEq

/-- `correlate_decisions(rule_decision, ml_label)`: a pure cascade of
cases over the decision and the (optional) ML label. -/
def correlate_decisions (rule_decision : Decision) (ml_label : Option MLLabel) :
    Correlation :=
  match ml_label with
  | none => ⟨"UNKNOWN", "RULE_ONLY", "ML unavailable"⟩
  | some l =>
      if rule_decision = Decision.BLOCK ∧ l = MLLabel.ANOMALOUS then
        ⟨"STRONG", "HIGH", "Rules and ML agree on malicious behavior"⟩
      else if rule_decision = Decision.ALLOW ∧ l = MLLabel.NORMAL then
        ⟨"STRONG", "HIGH", "Rules and ML agree on normal behavior"⟩
      else if rule_decision = Decision.THROTTLE ∧
          (l = MLLabel.SUSPICIOUS ∨ l = MLLabel.ANOMALOUS) then
        ⟨"PARTIAL", "MEDIUM", "ML supports cautious rule action"⟩
      else if rule_decision = Decision.ALLOW ∧ l = MLLabel.ANOMALOUS then
        ⟨"DISAGREE", "LOW", "ML flags anomaly but rules allow"⟩
      else if rule_decision = Decision.BLOCK ∧ l = MLLabel.NORMAL then
        ⟨"DISAGREE", "LOW", "Rules block but ML sees normal behavior"⟩
      else
        ⟨"NEUTRAL", "RULE_PRIORITY", "Rules take precedence"⟩

/-!  ## Synchronous ML inference — `gateway/ml/inference.py`

`infer_ml_signal` guards on model readiness (fail-open to `NORMAL`),
otherwise maps the model's anomaly score through the fixed thresholds
−0.4 and −0.2.  The sklearn model itself is outside the repository; its
score is a parameter. -/

/-- Python `round(x, 4)` on an exact rational (ties differ: Python rounds
half to even, this rounds half up; no theorem below depends on a tie). -/
def round4 (x : ℚ) : ℚ := (⌊x * 10000 + 1/2⌋ : ℚ) / 10000

/-- `infer_ml_signal(feature_vector)`: `ready` is `is_model_ready()`,
`score` is `model.decision_function(X)[0]`. -/
def infer_ml_signal (ready : Bool) (score : ℚ) : Option ℚ × MLLabel :=
  if !ready then (none, MLLabel.NORMAL)
  else if score < -(4/10) then (some (round4 score), MLLabel.ANOMALOUS)
  else if score < -(2/10) then (some (round4 score), MLLabel.SUSPICIOUS)
  else (some (round4 score), MLLabel.NORMAL)

/-!  ## Background re-scorer — `gateway/ml/async_detector.py`

`analyze_behaviour(api_key, model)` re-reads the window from its own DB
session, skips when fewer than 3 events exist, scores the extracted
features with the IsolationForest, and — exactly when
`score < -0.2` — writes the Redis deny entry `blocked:<api_key>` with
`SETEX ... 300` and one audit record with `decision="ANOMALY"`,
`client_ip="ml-engine"`, `endpoint="*"`.  The DB read and the sklearn
model live outside the embedded code, so the number of window events and
the model's score are parameters; the `if not features_dict` guard of the
source is subsumed because three or more events always yield a non-empty
feature dictionary. -/

/-- The audit-record fields the re-scorer writes (the reason string, which
interpolates the score, is not needed by any claim). -/
structure AuditMeta where
  client_ip : String
  endpoint : String
  http_method : String
  decision : String
  status_code : ℕ
deriving DecidableEq

/-- The externally visible effect of one `analyze_behaviour` run: the
Redis deny entry written (key and TTL seconds), and the audit record. -/
structure RescoreEffect where
  deny : Option (String × ℕ)
  audit : Option AuditMeta
deriving DecidableEq

/-- `analyze_behaviour` of `gateway/ml/async_detector.py`, parameterised
by the number of window events and the model score. -/
def analyze_behaviour (api_key : String) (nEvents : ℕ) (score : ℚ) : RescoreEffect :=
  if nEvents < 3 then ⟨none, none⟩
  else
    let decision := if score < -(2/10) then "ANOMALY" else "NORMAL"
    { deny := if decision = "ANOMALY" then some ("blocked:" ++ api_key, 300) else none,
      audit := if decision = "ANOMALY" then
          some ⟨"ml-engine", "*", "*", "ANOMALY", 200⟩
        else none }

/-!  ## Request orchestrator — `proxy` in `gateway/main.py`

The handler: validate the API key against `VALID_API_KEYS` (401 on
failure); inside a `try` block read the window, extract features, run
`evaluate_rules`, run `infer_ml_signal` (only when features are
non-empty), correlate, and enforce `BLOCK` (403) or `THROTTLE` (429);
`except Exception` falls back to `ALLOW` with a fallback correlation;
then forward to the upstream, log `ALLOW` with the upstream status, record
the event id in the window cache, schedule the re-scorer and return the
upstream response.

The handler never calls `rate_limiter.allow_request` and never reads the
`blocked:<api_key>` deny keys; both pieces of state are passed in below
precisely so that theorems can state this.  The upstream call sits outside
the `try` block: `upstream = none` models `requests.request` raising, which
propagates out of the handler. -/

/-- One audit record as written by `log_security_event`
(`gateway/logger.py`); `client_ip`/endpoint/method are fixed by the
request and elided. -/
structure LogRec where
  decision : String
  reason : String
  status_code : ℕ
deriving DecidableEq

/-- What the caller observes: a gateway-built HTTP response, or a raw
exception escaping the handler. -/
inductive Outcome where
  | response (status : ℕ)
  | raised
deriving DecidableEq

/-- The externally visible result of one `proxy` run: the outcome, the
audit records written, and whether the upstream call was made. -/
structure ProxyResult where
  outcome : Outcome
  logs : List LogRec
  forwarded : Bool
deriving DecidableEq

/-- `VALID_API_KEYS` from `gateway/main.py`. -/
def VALID_API_KEYS : List String := ["secret123", "client-demo-key", "Testing-API-Key"]

/-- Python string of `ml_result.get("label")` as interpolated into the
`ALLOW` log reason (`None` when the label is absent). -/
def labelStr : Option MLLabel → String
  | none => "None"
  | some MLLabel.NORMAL => "MLLabel.NORMAL"
  | some MLLabel.SUSPICIOUS => "MLLabel.SUSPICIOUS"
  | some MLLabel.ANOMALOUS => "MLLabel.ANOMALOUS"

/-- The forwarding tail of `proxy`: the upstream request, the `ALLOW`
audit record with the upstream status, and the final response; when the
upstream call raises, the exception leaves the handler with nothing
logged. -/
def forwardUpstream (upstream : Option ℕ) (summary : String) (ml_label : Option MLLabel) :
    ProxyResult :=
  match upstream with
  | none => ⟨Outcome.raised, [], true⟩
  | some s =>
      ⟨Outcome.response s,
       [⟨"ALLOW", "RULE_ENGINE_ALLOW: " ++ summary ++ " | ML: " ++ labelStr ml_label, s⟩],
       true⟩

/-- The `proxy` handler of `gateway/main.py`.  `features` stands for the
outcome of the window read + feature extraction for this key,
`scoringFails` for an exception anywhere in the `try` block (the
`infer_ml_signal` call included), `detLabel` for the label
`infer_ml_signal` returns when it is called and succeeds, `upstream` for
the upstream call's status (`none` = it raises), `denyListed` for the
presence of an unexpired `blocked:<api_key>` entry and `rl` for the
rate-limiter state of the key — the two latter are never read by the
handler, which the C1/C2 theorems make explicit. -/
def proxy (apiKey : Option String) (features : Option Features)
    (scoringFails : Bool) (detLabel : MLLabel) (upstream : Option ℕ)
    (denyListed : Bool) (rl : Option RLState) : ProxyResult :=
  match apiKey with
  | none =>
      ⟨Outcome.response 401, [⟨"BLOCK", "INVALID_API_KEY", 401⟩], false⟩
  | some k =>
      if k ∉ VALID_API_KEYS then
        ⟨Outcome.response 401, [⟨"BLOCK", "INVALID_API_KEY", 401⟩], false⟩
      else if scoringFails then
        -- `except Exception`: fall back to ALLOW and proceed to forward
        forwardUpstream upstream "Phase 5.4 fallback" none
      else
        let rule_decision := evaluate_rules features
        let ml_label : Option MLLabel := if features.isSome then some detLabel else none
        let correlation := correlate_decisions rule_decision ml_label
        if rule_decision = Decision.BLOCK then
          ⟨Outcome.response 403,
           [⟨"BLOCK", "RULE_ENGINE_BLOCK: " ++ correlation.summary, 403⟩], false⟩
        else if rule_decision = Decision.THROTTLE then
          ⟨Outcome.response 429,
           [⟨"THROTTLE", "RULE_ENGINE_THROTTLE: " ++ correlation.summary, 429⟩], false⟩
        else
          forwardUpstream upstream correlation.summary ml_label

/-- The enforcement-relevant projection of a proxy run: everything except
the free-text audit reasons (which may mention the ML label). -/
def enforcement (r : ProxyResult) : Outcome × Bool × List String × List ℕ :=
  (r.outcome, r.forwarded, r.logs.map LogRec.decision, r.logs.map LogRec.status_code)

/-!  ## Feature extractor entropy — `gateway/analytics/feature_extractor.py`

`extract_features` computes `endpoints_entropy` as the Shannon entropy in
bits of the endpoint frequency distribution (`Counter` over the events'
endpoints, `p = count/total`, `entropy -= p * log2(p)`) and then rounds it
to 6 decimal places with Python's `round`.  Floats are modelled as exact
reals; `round(x, 6)` is modelled as `⌊x·10⁶ + 1/2⌋/10⁶` (Python rounds a
half to even, this rounds it up — no theorem below sits on a tie). -/

/-- A `SecurityEvent` row as read by the feature extractor (only the
fields the embedded outputs use). -/
structure SecurityEvent where
  endpoint : String
  decision : String
  timestamp : ℚ

/-- `unique_endpoints = len(set(endpoints))`. -/
def unique_endpoints (l : List String) : ℕ := l.dedup.length

/-- The values of `Counter(endpoints)`: one count per distinct endpoint. -/
def endpointCounts (l : List String) : List ℕ := l.dedup.map fun a => l.count a

/-- `endpoints_entropy` before rounding: `-Σ p·log2(p)` over the endpoint
frequency distribution with `p = count/total_requests`. -/
noncomputable def endpoints_entropy (l : List String) : ℝ :=
  -(((endpointCounts l).map fun (c : ℕ) =>
      (c : ℝ) / (l.length : ℝ) * Real.logb 2 ((c : ℝ) / (l.length : ℝ))).sum)

/-- Python `round(x, 6)` on a real (see the tie caveat above). -/
noncomputable def round6 (x : ℝ) : ℝ := ((round (x * 1000000) : ℤ) : ℝ) / 1000000

/-!  ## Supporting lemmas for the rate limiter -/

/-- Starting from a live cell `⟨c, e⟩` with `c ≤ maxRequests`, a batch of
calls all made before the expiry `e` yields `true` exactly for the calls
indexed `i` with `c + i < maxRequests`, and leaves the counter at
`min (c + #calls) maxRequests` with the expiry untouched. -/
lemma runCalls_in_window (mx : ℕ) (w e : ℚ) (ts : List ℚ) :
    ∀ c : ℕ, c ≤ mx → (∀ u ∈ ts, u < e) →
      runCalls mx w (some ⟨c, e⟩) ts
        = ((List.range ts.length).map (fun i => decide (c + i < mx)),
           some ⟨min (c + ts.length) mx, e⟩) := by
  induction ts with
  | nil =>
      intro c hc _
      simp [runCalls, Nat.min_eq_left hc]
  | cons t ts ih =>
      intro c hc hmem
      have ht : t < e := hmem t (List.mem_cons_self t ts)
      have hmem' : ∀ u ∈ ts, u < e := fun u hu => hmem u (List.mem_cons_of_mem t hu)
      by_cases hlt : c < mx
      · have hrec := ih (c + 1) hlt hmem'
        simp only [runCalls, allow_request, if_pos ht, if_pos hlt, hrec]
        refine congrArg₂ Prod.mk ?_ ?_
        · rw [List.length_cons, List.range_succ_eq_map, List.map_cons, List.map_map]
          refine congrArg₂ List.cons ?_ ?_
          · simp only [Nat.add_zero]
            exact (decide_eq_true hlt).symm
          · refine List.map_congr_left ?_
            intro i _
            simp only [Function.comp_apply]
            have h : c + 1 + i = c + (i + 1) := by omega
            rw [h]
        · have h : c + 1 + ts.length = c + (ts.length + 1) := by omega
          rw [List.length_cons, h]
      · have hce : c = mx := le_antisymm hc (not_lt.mp hlt)
        have hrec := ih c hc hmem'
        simp only [runCalls, allow_request, if_pos ht, if_neg hlt, hrec]
        refine congrArg₂ Prod.mk ?_ ?_
        · rw [List.length_cons, List.range_succ_eq_map, List.map_cons, List.map_map]
          refine congrArg₂ List.cons ?_ ?_
          · simp only [Nat.add_zero]
            exact (decide_eq_false hlt).symm
          · refine List.map_congr_left ?_
            intro i _
            simp only [Function.comp_apply]
            have h1 : ¬ c + i < mx := by omega
            have h2 : ¬ c + (i + 1) < mx := by omega
            rw [decide_eq_false h1, decide_eq_false h2]
        · have h1 : min (c + ts.length) mx = mx := by omega
          have h2 : min (c + (ts.length + 1)) mx = mx := by omega
          rw [List.length_cons, h1, h2]

/-!  ## Claim theorems: orchestrator, rate limiter, window store, re-scorer -/

/-- C1 (code bug): the `proxy` handler never consults the rate limiter —
its result is independent of the rate-limiter state; even with the
modelled limiter at its full count (where `allow_request` returns
`false`), a valid-keyed request is forwarded and logged `ALLOW`, and no
`THROTTLE/RATE_LIMIT_EXCEEDED` audit record or 429 is ever produced on
this path. -/
theorem c1_rate_limiter_not_consulted :
    (∀ (rl rl' : Option RLState) (upstream : Option ℕ) (features : Option Features)
        (fails : Bool) (lab : MLLabel) (key : Option String) (d : Bool),
        proxy key features fails lab upstream d rl = proxy key features fails lab upstream d rl')
    ∧ allow_request 10 60 (some ⟨10, 60⟩) 0 = (false, some ⟨10, 60⟩)
    ∧ proxy (some "secret123") none false MLLabel.NORMAL (some 200) false (some ⟨10, 60⟩)
        = ⟨Outcome.response 200,
           [⟨"ALLOW", "RULE_ENGINE_ALLOW: ML unavailable | ML: None", 200⟩], true⟩ := by
  refine ⟨fun _ _ _ _ _ _ _ _ => rfl, by norm_num [allow_request], ?_⟩
  simp [proxy, VALID_API_KEYS, evaluate_rules, correlate_decisions, forwardUpstream, labelStr]

/-- C2 (code bug): the `proxy` handler never reads the deny-list — its
result is independent of whether an unexpired `blocked:<api_key>` entry
exists, and a deny-listed valid key is still forwarded to the upstream. -/
theorem c2_denylist_not_checked :
    (∀ (d d' : Bool) (rl : Option RLState) (upstream : Option ℕ) (features : Option Features)
        (fails : Bool) (lab : MLLabel) (key : Option String),
        proxy key features fails lab upstream d rl = proxy key features fails lab upstream d' rl)
    ∧ proxy (some "secret123") none false MLLabel.NORMAL (some 200) true none
        = ⟨Outcome.response 200,
           [⟨"ALLOW", "RULE_ENGINE_ALLOW: ML unavailable | ML: None", 200⟩], true⟩ := by
  refine ⟨fun _ _ _ _ _ _ _ _ => rfl, ?_⟩
  simp [proxy, VALID_API_KEYS, evaluate_rules, correlate_decisions, forwardUpstream, labelStr]

/-- C3 (code bug): the window-store round-trip fails — `record_events`
writes under the Redis key `api_window:<key>` while
`get_window_events_ids` reads `api_key:<key>`, so an entry recorded at
`t = 0` is already invisible to `read` at `t = 0` (and at `t + 59`), even
though it does sit under the written key. -/
theorem c3_window_roundtrip_broken :
    get_window_events_ids (record_events WStore.empty 0 "k" 1) 0 "k" = []
    ∧ get_window_events_ids (record_events WStore.empty 0 "k" 1) 59 "k" = []
    ∧ (liveEntries (record_events WStore.empty 0 "k" 1) ("api_window:" ++ "k") 0).map
        Prod.fst = [1] := by
  refine ⟨?_, ?_, ?_⟩ <;>
    simp [get_window_events_ids, record_events, liveEntries, WStore.empty,
      sortByScore, WINDOW_SECONDS, List.filter, insertByScore,
      show (0 : ℚ) < 60 + 10 by norm_num, show ¬ ((0 : ℚ) ≤ 0 - 60) by norm_num]

/-- C4 counterexample: at model score −0.3 (which is not below −0.4) with
3 window events, `analyze_behaviour` does insert the deny entry — the
code bans at threshold −0.2, not −0.4. -/
theorem c4_counterexample :
    (analyze_behaviour "k" 3 (-(3/10))).deny = some ("blocked:" ++ "k", 300)
    ∧ ¬ ((-(3/10) : ℚ) < -(4/10)) := by
  refine ⟨by norm_num [analyze_behaviour], by norm_num⟩

/-- C4 (amended): the re-scorer skips scoring below 3 window events, and
inserts the 300-second deny entry, together with exactly one audit record
carrying `decision="ANOMALY"`, `client_ip="ml-engine"`, `endpoint="*"`,
exactly when the score is below −0.2; non-anomalous outcomes produce
neither. -/
theorem c4_rescorer_policy (api_key : String) (nEvents : ℕ) (score : ℚ) :
    ((analyze_behaviour api_key nEvents score).deny
        = some ("blocked:" ++ api_key, 300) ↔ 3 ≤ nEvents ∧ score < -(2/10))
    ∧ ((analyze_behaviour api_key nEvents score).audit
        = some ⟨"ml-engine", "*", "*", "ANOMALY", 200⟩ ↔ 3 ≤ nEvents ∧ score < -(2/10))
    ∧ (nEvents < 3 → analyze_behaviour api_key nEvents score = ⟨none, none⟩)
    ∧ (¬ score < -(2/10) → (analyze_behaviour api_key nEvents score).audit = none) := by
  by_cases hn : nEvents < 3
  · have h3 : ¬ 3 ≤ nEvents := by omega
    simp [analyze_behaviour, hn, h3]
  · have h3 : 3 ≤ nEvents := by omega
    by_cases hs : score < -(2/10)
    · simp [analyze_behaviour, hn, hs, h3]
    · simp [analyze_behaviour, hn, hs, h3]

/-- C4 witness: concrete instantiation of the amended re-scorer policy. -/
theorem c4_rescorer_policy_witness :
    (3 ≤ 3 ∧ (-(3/10) : ℚ) < -(2/10))
    ∧ (analyze_behaviour "k" 3 (-(3/10))).audit
        = some ⟨"ml-engine", "*", "*", "ANOMALY", 200⟩ :=
  ⟨⟨by norm_num, by norm_num⟩,
   (c4_rescorer_policy "k" 3 (-(3/10))).2.1.mpr ⟨by norm_num, by norm_num⟩⟩

/-- C5 counterexample: with a feature vector the rule engine blocks, a
run where the detector succeeds yields 403 and no upstream contact, while
the run differing only in the detector call failing is forwarded and
answered with the upstream 200 — the detector's outcome changes the
enforcement result. -/
theorem c5_counterexample :
    (proxy (some "secret123") (some ⟨5, 1, 0, 0, 0, 1, 0⟩) false MLLabel.NORMAL
        (some 200) false none).outcome = Outcome.response 403
    ∧ (proxy (some "secret123") (some ⟨5, 1, 0, 0, 0, 1, 0⟩) false MLLabel.NORMAL
        (some 200) false none).forwarded = false
    ∧ (proxy (some "secret123") (some ⟨5, 1, 0, 0, 0, 1, 0⟩) true MLLabel.NORMAL
        (some 200) false none).outcome = Outcome.response 200
    ∧ (proxy (some "secret123") (some ⟨5, 1, 0, 0, 0, 1, 0⟩) true MLLabel.NORMAL
        (some 200) false none).forwarded = true := by
  refine ⟨?_, ?_, ?_, ?_⟩ <;>
    norm_num [proxy, VALID_API_KEYS, evaluate_rules, correlate_decisions, forwardUpstream]

/-- C5 (amended): the detector is advisory across its three successful
labels — for a fixed request and window state, the enforcement-relevant
outcome (response/exception, forwarding, audit decisions and status
codes) is identical for any two labels; only a detector *failure*, caught
by the orchestrator's catch-all, can change the outcome (it forces the
ALLOW fallback, as the counterexample shows). -/
theorem c5_labels_advisory (key : Option String) (features : Option Features)
    (upstream : Option ℕ) (d : Bool) (rl : Option RLState) (l1 l2 : MLLabel) :
    enforcement (proxy key features false l1 upstream d rl)
      = enforcement (proxy key features false l2 upstream d rl) := by
  cases key with
  | none => rfl
  | some k =>
      by_cases hk : k ∈ VALID_API_KEYS
      · have hk' : ¬ k ∉ VALID_API_KEYS := not_not_intro hk
        simp only [proxy, if_neg hk']
        cases h : evaluate_rules features <;>
          cases upstream <;>
            simp [enforcement, forwardUpstream, h]
      · simp [proxy, hk]

/-- C6 (code bug): when the upstream call raises (it sits outside the
handler's `try` block), the exception escapes `proxy` with no audit
record written and no gateway response — not one audit record, not one
response, and a raw exception reaches the caller. -/
theorem c6_upstream_failure_unlogged :
    proxy (some "secret123") none false MLLabel.NORMAL none false none
      = ⟨Outcome.raised, [], true⟩ := by
  simp [proxy, VALID_API_KEYS, evaluate_rules, forwardUpstream]

/-- C7: the rule engine equals the claim's cascade on every input —
empty/absent features yield ALLOW, otherwise the three threshold rules
apply in strict priority order with first match winning and default
ALLOW. -/
theorem c7_rule_engine_cascade :
    (∀ fo : Option Features, evaluate_rules fo = evaluate_rules_claim fo)
    ∧ evaluate_rules none = Decision.ALLOW
    ∧ (∀ f : Features, 6/10 ≤ f.blocked_ratio → 5 ≤ f.total_requests →
        evaluate_rules (some f) = Decision.BLOCK)
    ∧ (∀ f : Features, ¬ (6/10 ≤ f.blocked_ratio ∧ 5 ≤ f.total_requests) →
        5 < f.requests_per_second → evaluate_rules (some f) = Decision.THROTTLE)
    ∧ (∀ f : Features, ¬ (6/10 ≤ f.blocked_ratio ∧ 5 ≤ f.total_requests) →
        ¬ 5 < f.requests_per_second → 10 ≤ f.unique_endpoints →
        5/2 ≤ f.endpoints_entropy → evaluate_rules (some f) = Decision.THROTTLE)
    ∧ (∀ f : Features, ¬ (6/10 ≤ f.blocked_ratio ∧ 5 ≤ f.total_requests) →
        ¬ 5 < f.requests_per_second →
        ¬ (10 ≤ f.unique_endpoints ∧ 5/2 ≤ f.endpoints_entropy) →
        evaluate_rules (some f) = Decision.ALLOW) := by
  refine ⟨?_, rfl, ?_, ?_, ?_, ?_⟩
  · intro fo
    cases fo with
    | none => rfl
    | some f => simp only [evaluate_rules, evaluate_rules_claim, ge_iff_le, gt_iff_lt]
  · intro f h1 h2
    simp [evaluate_rules, h1, h2]
  · intro f h1 h2
    simp [evaluate_rules, h1, h2]
  · intro f h1 h2 h3 h4
    simp [evaluate_rules, h1, h2, h3, h4]
  · intro f h1 h2 h3
    simp [evaluate_rules, h1, h2, h3]

/-- C7 witness: concrete instantiation of the BLOCK rule. -/
theorem c7_rule_engine_cascade_witness :
    ((6/10 : ℚ) ≤ 1 ∧ (5 : ℕ) ≤ 5)
    ∧ evaluate_rules (some ⟨5, 1, 0, 0, 0, 1, 0⟩) = Decision.BLOCK :=
  ⟨⟨by norm_num, by norm_num⟩,
   c7_rule_engine_cascade.2.2.1 ⟨5, 1, 0, 0, 0, 1, 0⟩ (by norm_num) (by norm_num)⟩

/-- C8: with `max_requests=10, window_seconds=60`, a fresh key answers
`true` for the 1st–10th calls of a window and `false` for the 11th;
whenever the key's TTL has lapsed the state resets unconditionally and
the call returns `true`; and within a window the stored count never
decreases. -/
theorem c8_rate_limiter_fixed_window (t : ℚ) (ts : List ℚ)
    (hmem : ∀ u ∈ ts, u < t + 60) (hlen : ts.length = 10) :
    (runCalls 10 60 none (t :: ts)).1 = List.replicate 10 true ++ [false]
    ∧ (∀ (s : RLState) (u : ℚ), s.expiresAt ≤ u →
        allow_request 10 60 (some s) u = (true, some ⟨1, u + 60⟩))
    ∧ (∀ (s : RLState) (u : ℚ), u < s.expiresAt →
        s.count ≤ rlCount (allow_request 10 60 (some s) u).2) := by
  refine ⟨?_, ?_, ?_⟩
  · have h0 : (runCalls 10 60 none (t :: ts)).1
        = true :: (runCalls 10 60 (some ⟨1, t + 60⟩) ts).1 := rfl
    have h1 := runCalls_in_window 10 60 (t + 60) ts 1 (by norm_num) hmem
    rw [h0, h1, hlen]
    show true :: List.map (fun i => decide (1 + i < 10)) (List.range 10)
        = List.replicate 10 true ++ [false]
    decide
  · intro s u h
    have : ¬ u < s.expiresAt := not_lt.mpr h
    simp [allow_request, this]
  · intro s u h
    by_cases hc : s.count < 10
    · simp [allow_request, if_pos h, hc, rlCount]
    · simp [allow_request, if_pos h, hc, rlCount]

/-- C8 witness: eleven calls at time 0 for a fresh key. -/
theorem c8_rate_limiter_fixed_window_witness :
    ((∀ u ∈ List.replicate 10 (0 : ℚ), u < 0 + 60) ∧ (List.replicate 10 (0 : ℚ)).length = 10)
    ∧ (runCalls 10 60 none ((0 : ℚ) :: List.replicate 10 0)).1
        = List.replicate 10 true ++ [false] :=
  ⟨⟨fun u hu => by rw [List.eq_of_mem_replicate hu]; norm_num, by simp⟩,
   (c8_rate_limiter_fixed_window 0 (List.replicate 10 0)
     (fun u hu => by rw [List.eq_of_mem_replicate hu]; norm_num) (by simp)).1⟩

/-- C10: the stored counter never exceeds `max_requests`; a denied call
leaves the state untouched; within one window, once a call is denied
every later call of that window is denied too; and a key at full count is
re-admitted exactly when its TTL has lapsed. -/
theorem c10_rate_limiter_saturation (mx : ℕ) (w : ℚ) (hmx : 1 ≤ mx) :
    (∀ (st : Option RLState) (now : ℚ), rlCount st ≤ mx →
        rlCount (allow_request mx w st now).2 ≤ mx)
    ∧ (∀ (st : Option RLState) (now : ℚ),
        (allow_request mx w st now).1 = false → (allow_request mx w st now).2 = st)
    ∧ (∀ (s : RLState) (u u' : ℚ), u < s.expiresAt → u' < s.expiresAt →
        (allow_request mx w (some s) u).1 = false →
        (allow_request mx w (some s) u').1 = false)
    ∧ (∀ (s : RLState) (u : ℚ), ¬ s.count < mx →
        ((allow_request mx w (some s) u).1 = true ↔ s.expiresAt ≤ u)) := by
  refine ⟨?_, ?_, ?_, ?_⟩
  · intro st now hst
    cases st with
    | none => simpa [allow_request, rlCount] using hmx
    | some s =>
        by_cases h1 : now < s.expiresAt
        · by_cases h2 : s.count < mx
          · have he : rlCount (allow_request mx w (some s) now).2 = s.count + 1 := by
              simp [allow_request, h1, h2, rlCount]
            rw [he]
            omega
          · have he : rlCount (allow_request mx w (some s) now).2 = s.count := by
              simp [allow_request, h1, h2, rlCount]
            rw [he]
            simpa [rlCount] using hst
        · simpa [allow_request, h1, rlCount] using hmx
  · intro st now hfalse
    cases st with
    | none => simp [allow_request] at hfalse
    | some s =>
        by_cases h1 : now < s.expiresAt
        · by_cases h2 : s.count < mx
          · simp [allow_request, h1, h2] at hfalse
          · simp [allow_request, h1, h2]
        · simp [allow_request, h1] at hfalse
  · intro s u u' hu hu' hfalse
    by_cases h2 : s.count < mx
    · simp [allow_request, hu, h2] at hfalse
    · simp [allow_request, hu', h2]
  · intro s u hc
    by_cases h1 : u < s.expiresAt
    · simp only [allow_request, if_pos h1, if_neg hc]
      simp only [Bool.false_eq_true, false_iff]
      exact not_le.mpr h1
    · simp only [allow_request, if_neg h1]
      exact iff_of_true trivial (not_lt.mp h1)

/-!  ## Supporting lemmas for the entropy bounds (claim C9) -/

set_option exponentiation.threshold 2000000

set_option maxRecDepth 100000

/-- Bridge between the `Counter`-values list and a `Finset` sum over the
distinct endpoints. -/
lemma endpointCounts_map_sum (l : List String) (f : ℕ → ℝ) :
    ((endpointCounts l).map f).sum = ∑ a ∈ l.toFinset, f (l.count a) := by
  have hdd : l.dedup.toFinset = l.toFinset :=
    List.toFinset_eq_iff_perm_dedup.mpr (by rw [List.dedup_idem])
  calc ((l.dedup.map fun a => l.count a).map f).sum
      = (l.dedup.map fun a => f (l.count a)).sum := by rw [List.map_map]; rfl
    _ = l.dedup.toFinset.sum fun a => f (l.count a) :=
        (List.sum_toFinset _ l.nodup_dedup).symm
    _ = ∑ a ∈ l.toFinset, f (l.count a) := by rw [hdd]

/-- `len(set(endpoints))` agrees with the `Finset` of distinct endpoints. -/
lemma toFinset_card_eq_unique (l : List String) : l.toFinset.card = unique_endpoints l := by
  have hdd : l.dedup.toFinset = l.toFinset :=
    List.toFinset_eq_iff_perm_dedup.mpr (by rw [List.dedup_idem])
  rw [unique_endpoints, ← List.toFinset_card_of_nodup l.nodup_dedup, hdd]

/-- Each entropy summand `-p·log2 p` is nonnegative for `p ∈ [0, 1]`. -/
lemma neg_mul_logb_nonneg {x : ℝ} (h0 : 0 ≤ x) (h1 : x ≤ 1) :
    0 ≤ -(x * Real.logb 2 x) := by
  have hlb : Real.logb 2 x ≤ 0 := Real.logb_nonpos (by norm_num) h0 h1
  nlinarith

/-- The entropy of the endpoint distribution is nonnegative. -/
lemma endpoints_entropy_nonneg (l : List String) : 0 ≤ endpoints_entropy l := by
  rw [endpoints_entropy, endpointCounts_map_sum, ← Finset.sum_neg_distrib]
  refine Finset.sum_nonneg ?_
  intro a ha
  have hal : a ∈ l := List.mem_toFinset.mp ha
  have hn : 0 < l.length := List.length_pos.mpr (List.ne_nil_of_mem hal)
  have hnR : (0:ℝ) < (l.length : ℝ) := by exact_mod_cast hn
  have h0 : 0 ≤ (l.count a : ℝ) / (l.length : ℝ) := by positivity
  have h1 : (l.count a : ℝ) / (l.length : ℝ) ≤ 1 := by
    rw [div_le_one hnR]
    exact_mod_cast List.count_le_length a l
  exact neg_mul_logb_nonneg h0 h1

/-- Jensen bound: the entropy is at most `log2` of the number of distinct
endpoints. -/
lemma endpoints_entropy_le (l : List String) (hl : l ≠ []) :
    endpoints_entropy l ≤ Real.logb 2 ((unique_endpoints l : ℕ) : ℝ) := by
  have hn : 0 < l.length := List.length_pos.mpr hl
  have hnR : (0:ℝ) < (l.length : ℝ) := by exact_mod_cast hn
  have hcount : ∀ a ∈ l.toFinset, (0:ℝ) < (l.count a : ℝ) := by
    intro a ha
    have h := List.count_pos_iff.mpr (List.mem_toFinset.mp ha)
    exact_mod_cast h
  have hwpos : ∀ a ∈ l.toFinset, 0 < (l.count a : ℝ) / (l.length : ℝ) :=
    fun a ha => div_pos (hcount a ha) hnR
  have hw1 : ∑ a ∈ l.toFinset, (l.count a : ℝ) / (l.length : ℝ) = 1 := by
    rw [← Finset.sum_div]
    have hsum : ∑ a ∈ l.toFinset, (l.count a : ℝ) = (l.length : ℝ) := by
      exact_mod_cast List.sum_toFinset_count_eq_length l
    rw [hsum, div_self (ne_of_gt hnR)]
  have hmem : ∀ a ∈ l.toFinset,
      ((l.count a : ℝ) / (l.length : ℝ))⁻¹ ∈ Set.Ioi (0:ℝ) :=
    fun a ha => Set.mem_Ioi.mpr (inv_pos.mpr (hwpos a ha))
  have jensen := (strictConcaveOn_log_Ioi.concaveOn).le_map_sum
      (fun a ha => (hwpos a ha).le) hw1 hmem
  have hinner : ∑ a ∈ l.toFinset,
      ((l.count a : ℝ) / (l.length : ℝ)) • (((l.count a : ℝ) / (l.length : ℝ))⁻¹)
        = (l.toFinset.card : ℝ) := by
    have h1 : ∀ a ∈ l.toFinset,
        ((l.count a : ℝ) / (l.length : ℝ)) • (((l.count a : ℝ) / (l.length : ℝ))⁻¹)
          = (1:ℝ) := fun a ha => by
      rw [smul_eq_mul, mul_inv_cancel₀ (ne_of_gt (hwpos a ha))]
    rw [Finset.sum_congr rfl h1, Finset.sum_const, nsmul_eq_mul, mul_one]
  have hE : endpoints_entropy l
      = (∑ a ∈ l.toFinset,
          ((l.count a : ℝ) / (l.length : ℝ))
            * Real.log (((l.count a : ℝ) / (l.length : ℝ))⁻¹)) / Real.log 2 := by
    rw [endpoints_entropy, endpointCounts_map_sum, ← Finset.sum_neg_distrib,
        Finset.sum_div]
    refine Finset.sum_congr rfl ?_
    intro a ha
    rw [Real.log_inv, Real.logb]
    ring
  have hstep : (∑ a ∈ l.toFinset,
      ((l.count a : ℝ) / (l.length : ℝ))
        * Real.log (((l.count a : ℝ) / (l.length : ℝ))⁻¹))
      ≤ Real.log ((l.toFinset.card : ℝ)) := by
    calc (∑ a ∈ l.toFinset,
          ((l.count a : ℝ) / (l.length : ℝ))
            * Real.log (((l.count a : ℝ) / (l.length : ℝ))⁻¹))
        = ∑ a ∈ l.toFinset,
            ((l.count a : ℝ) / (l.length : ℝ))
              • Real.log (((l.count a : ℝ) / (l.length : ℝ))⁻¹) := by
          simp [smul_eq_mul]
      _ ≤ Real.log (∑ a ∈ l.toFinset,
            ((l.count a : ℝ) / (l.length : ℝ))
              • (((l.count a : ℝ) / (l.length : ℝ))⁻¹)) := jensen
      _ = Real.log ((l.toFinset.card : ℝ)) := by rw [hinner]
  have hlog2 : (0:ℝ) < Real.log 2 := Real.log_pos (by norm_num)
  rw [hE]
  have hfin := (div_le_div_right hlog2).mpr hstep
  refine le_trans hfin (le_of_eq ?_)
  rw [Real.log_div_log, toFinset_card_eq_unique]

/-- The entropy vanishes exactly when a single endpoint occurs. -/
lemma endpoints_entropy_eq_zero_iff (l : List String) (hl : l ≠ []) :
    endpoints_entropy l = 0 ↔ unique_endpoints l = 1 := by
  have hn : 0 < l.length := List.length_pos.mpr hl
  have hnR : (0:ℝ) < (l.length : ℝ) := by exact_mod_cast hn
  have hterm : ∀ a ∈ l.toFinset,
      0 ≤ -((l.count a : ℝ) / (l.length : ℝ)
              * Real.logb 2 ((l.count a : ℝ) / (l.length : ℝ))) := by
    intro a ha
    have h0 : 0 ≤ (l.count a : ℝ) / (l.length : ℝ) := by positivity
    have h1 : (l.count a : ℝ) / (l.length : ℝ) ≤ 1 := by
      rw [div_le_one hnR]
      exact_mod_cast List.count_le_length a l
    exact neg_mul_logb_nonneg h0 h1
  have hE : endpoints_entropy l
      = ∑ a ∈ l.toFinset,
          -((l.count a : ℝ) / (l.length : ℝ)
              * Real.logb 2 ((l.count a : ℝ) / (l.length : ℝ))) := by
    rw [endpoints_entropy, endpointCounts_map_sum, ← Finset.sum_neg_distrib]
  rw [← toFinset_card_eq_unique]
  constructor
  · intro h0
    rw [hE] at h0
    have hall := (Finset.sum_eq_zero_iff_of_nonneg hterm).mp h0
    obtain ⟨a, hal⟩ := List.exists_mem_of_ne_nil l hl
    have ha : a ∈ l.toFinset := List.mem_toFinset.mpr hal
    have hterma := hall a ha
    have hwpos : (0:ℝ) < (l.count a : ℝ) / (l.length : ℝ) := by
      refine div_pos ?_ hnR
      have h := List.count_pos_iff.mpr hal
      exact_mod_cast h
    have hlogzero : Real.logb 2 ((l.count a : ℝ) / (l.length : ℝ)) = 0 := by
      rcases mul_eq_zero.mp (neg_eq_zero.mp hterma) with h | h
      · exact absurd h (ne_of_gt hwpos)
      · exact h
    have hwone : (l.count a : ℝ) / (l.length : ℝ) = 1 := by
      have hlz : Real.log ((l.count a : ℝ) / (l.length : ℝ)) = 0 := by
        have h2 : Real.log 2 ≠ 0 := ne_of_gt (Real.log_pos (by norm_num))
        rw [Real.logb] at hlogzero
        exact (div_eq_zero_iff.mp hlogzero).resolve_right h2
      rcases Real.log_eq_zero.mp hlz with h | h | h
      · exact absurd h (ne_of_gt hwpos)
      · exact h
      · nlinarith
    have hca : l.count a = l.length := by
      have h := (div_eq_one_iff_eq (ne_of_gt hnR)).mp hwone
      exact_mod_cast h
    have hsumN : ∑ b ∈ l.toFinset, l.count b = l.length :=
      List.sum_toFinset_count_eq_length l
    have herase : ∑ b ∈ l.toFinset.erase a, l.count b = 0 := by
      have h := Finset.add_sum_erase l.toFinset (fun b => l.count b) ha
      simp only at h
      omega
    have hempty : l.toFinset.erase a = ∅ := by
      by_contra hne2
      obtain ⟨b, hb⟩ := Finset.nonempty_iff_ne_empty.mpr hne2
      have hbt : b ∈ l.toFinset := Finset.mem_of_mem_erase hb
      have hbpos : 0 < l.count b := List.count_pos_iff.mpr (List.mem_toFinset.mp hbt)
      have hbz := Finset.sum_eq_zero_iff.mp herase b hb
      omega
    have hsingle : l.toFinset = {a} := by
      rw [← Finset.insert_erase ha, hempty]
      rfl
    rw [hsingle, Finset.card_singleton]
  · intro h1
    obtain ⟨a, hta⟩ := Finset.card_eq_one.mp h1
    have ha : a ∈ l.toFinset := by rw [hta]; exact Finset.mem_singleton_self a
    have hca : l.count a = l.length := by
      have hsumN : ∑ b ∈ l.toFinset, l.count b = l.length :=
        List.sum_toFinset_count_eq_length l
      rw [hta, Finset.sum_singleton] at hsumN
      exact hsumN
    rw [hE, hta, Finset.sum_singleton]
    have hwone : (l.count a : ℝ) / (l.length : ℝ) = 1 := by
      rw [hca]
      exact div_self (ne_of_gt hnR)
    rw [hwone, Real.logb_one]
    ring

/-- One distinct endpoint means every element of the list is that
endpoint. -/
lemma unique_endpoints_eq_one_iff (l : List String) (hl : l ≠ []) :
    unique_endpoints l = 1 ↔ ∃ a, ∀ x ∈ l, x = a := by
  rw [← toFinset_card_eq_unique]
  constructor
  · intro h
    obtain ⟨a, ha⟩ := Finset.card_eq_one.mp h
    refine ⟨a, fun x hx => ?_⟩
    have hxt : x ∈ l.toFinset := List.mem_toFinset.mpr hx
    rw [ha] at hxt
    exact Finset.mem_singleton.mp hxt
  · rintro ⟨a, ha⟩
    have h1 : l.toFinset = {a} := by
      apply Finset.eq_singleton_iff_unique_mem.mpr
      refine ⟨?_, fun x hx => ha x (List.mem_toFinset.mp hx)⟩
      obtain ⟨x, hx⟩ := List.exists_mem_of_ne_nil l hl
      have hxa := ha x hx
      rw [← hxa]
      exact List.mem_toFinset.mpr hx
    rw [h1, Finset.card_singleton]

/-- Rounding to 6 decimals preserves nonnegativity. -/
lemma round6_nonneg {x : ℝ} (hx : 0 ≤ x) : 0 ≤ round6 x := by
  rw [round6]
  refine div_nonneg ?_ (by norm_num)
  have h1 : (0:ℤ) ≤ round (x * 1000000) := by
    rw [round_eq]
    refine Int.floor_nonneg.mpr ?_
    nlinarith
  exact_mod_cast h1

/-- Rounding to 6 decimals overshoots by at most `1/2000000`. -/
lemma round6_le {x : ℝ} : round6 x ≤ x + 1/2000000 := by
  rw [round6]
  have h2 := abs_sub_round (x * 1000000)
  rw [abs_le] at h2
  have h1 : (round (x * 1000000) : ℝ) ≤ x * 1000000 + 1/2 := by linarith [h2.1]
  have h3 : (round (x * 1000000) : ℝ) / 1000000 ≤ (x * 1000000 + 1/2) / 1000000 :=
    (div_le_div_right (by norm_num)).mpr h1
  calc (round (x * 1000000) : ℝ) / 1000000 ≤ (x * 1000000 + 1/2) / 1000000 := h3
    _ = x + 1/2000000 := by ring

/-- `log2 3 < p/q` transfers from `3^q < 2^p`. -/
lemma logb_two_three_lt {p q : ℕ} (hq : 0 < q) (h : (3:ℕ)^q < 2^p) :
    Real.logb 2 3 < (p:ℝ) / (q:ℝ) := by
  have hR : ((3:ℝ))^q < (2:ℝ)^p := by exact_mod_cast h
  have h1 : Real.logb 2 ((3:ℝ)^q) < Real.logb 2 ((2:ℝ)^p) :=
    Real.logb_lt_logb (by norm_num) (by positivity) hR
  rw [Real.logb_pow, Real.logb_pow, Real.logb_self_eq_one (by norm_num)] at h1
  have hqR : (0:ℝ) < (q:ℝ) := by exact_mod_cast hq
  rw [lt_div_iff hqR]
  nlinarith [h1]

/-- `p/q < log2 3` transfers from `2^p < 3^q`. -/
lemma lt_logb_two_three {p q : ℕ} (hq : 0 < q) (h : (2:ℕ)^p < 3^q) :
    (p:ℝ) / (q:ℝ) < Real.logb 2 3 := by
  have hR : ((2:ℝ))^p < (3:ℝ)^q := by exact_mod_cast h
  have h1 : Real.logb 2 ((2:ℝ)^p) < Real.logb 2 ((3:ℝ)^q) :=
    Real.logb_lt_logb (by norm_num) (by positivity) hR
  rw [Real.logb_pow, Real.logb_pow, Real.logb_self_eq_one (by norm_num)] at h1
  have hqR : (0:ℝ) < (q:ℝ) := by exact_mod_cast hq
  rw [div_lt_iff hqR]
  nlinarith [h1]

/-- Upper rational bound on `log2 3` (continued-fraction convergent). -/
lemma logb23_ub : Real.logb 2 3 < (24727:ℝ) / 15601 :=
  logb_two_three_lt (by norm_num) (by decide)

/-- Lower rational bound on `log2 3`: exactly the `1.5849625` rounding
boundary. -/
lemma logb23_lb : (126797:ℝ) / 80000 < Real.logb 2 3 :=
  lt_logb_two_three (by norm_num) (by decide)

/-- `round(log2(3) · 10⁶)` lands on `1584963`. -/
lemma round_logb23 : round (Real.logb 2 3 * 1000000) = 1584963 := by
  have hub := logb23_ub
  have hlb := logb23_lb
  rw [round_eq]
  refine Int.floor_eq_iff.mpr ⟨?_, ?_⟩
  · push_cast
    linarith
  · push_cast
    linarith

/-- C9 counterexample: three events on three distinct endpoints have
entropy `log2 3 ≈ 1.5849625007`; rounding to 6 decimals gives
`1.584963 > log2 3 = log2(unique_endpoints)`, so the claimed bound on the
*rounded* entropy fails. -/
theorem c9_counterexample :
    ¬ (round6 (endpoints_entropy
          (([⟨"a", "ALLOW", 0⟩, ⟨"b", "ALLOW", 0⟩, ⟨"c", "ALLOW", 0⟩] :
            List SecurityEvent).map SecurityEvent.endpoint))
        ≤ Real.logb 2
            ((unique_endpoints
              (([⟨"a", "ALLOW", 0⟩, ⟨"b", "ALLOW", 0⟩, ⟨"c", "ALLOW", 0⟩] :
                List SecurityEvent).map SecurityEvent.endpoint) : ℕ) : ℝ)) := by
  have hmap : (([⟨"a", "ALLOW", 0⟩, ⟨"b", "ALLOW", 0⟩, ⟨"c", "ALLOW", 0⟩] :
      List SecurityEvent).map SecurityEvent.endpoint) = ["a", "b", "c"] := rfl
  have hu : unique_endpoints ["a", "b", "c"] = 3 := by decide
  have hc : endpointCounts ["a", "b", "c"] = [1, 1, 1] := by decide
  have hH : endpoints_entropy ["a", "b", "c"] = Real.logb 2 3 := by
    rw [endpoints_entropy, hc]
    simp only [List.map_cons, List.map_nil, List.sum_cons, List.sum_nil, List.length_cons,
      List.length_nil]
    push_cast
    have h13 : Real.logb 2 ((1:ℝ) / 3) = -Real.logb 2 3 := by
      rw [one_div, Real.logb_inv]
    rw [h13]
    ring
  rw [hmap, hu, hH]
  have h3 : ((3:ℕ) : ℝ) = (3:ℝ) := by norm_num
  rw [h3, round6, round_logb23]
  push_neg
  have hub := logb23_ub
  push_cast
  linarith

/-- C9 (amended): for every non-empty event list, the pre-rounding
entropy satisfies `0 ≤ H ≤ log2(unique_endpoints)` and vanishes exactly
when all events hit a single endpoint; the value rounded to 6 decimals is
still nonnegative but is only bounded by `log2(unique_endpoints) + 5·10⁻⁷`
(rounding can push it above `log2(unique_endpoints)`, as the
counterexample shows). -/
theorem c9_entropy_bounds (events : List SecurityEvent) (hne : events ≠ []) :
    0 ≤ endpoints_entropy (events.map SecurityEvent.endpoint)
    ∧ endpoints_entropy (events.map SecurityEvent.endpoint)
        ≤ Real.logb 2 ((unique_endpoints (events.map SecurityEvent.endpoint) : ℕ) : ℝ)
    ∧ (endpoints_entropy (events.map SecurityEvent.endpoint) = 0
        ↔ ∃ a, ∀ e ∈ events, e.endpoint = a)
    ∧ 0 ≤ round6 (endpoints_entropy (events.map SecurityEvent.endpoint))
    ∧ round6 (endpoints_entropy (events.map SecurityEvent.endpoint))
        ≤ Real.logb 2 ((unique_endpoints (events.map SecurityEvent.endpoint) : ℕ) : ℝ)
          + 1/2000000 := by
  have hl : events.map SecurityEvent.endpoint ≠ [] := by
    simpa using hne
  refine ⟨endpoints_entropy_nonneg _, endpoints_entropy_le _ hl, ?_,
    round6_nonneg (endpoints_entropy_nonneg _), ?_⟩
  · rw [endpoints_entropy_eq_zero_iff _ hl, unique_endpoints_eq_one_iff _ hl]
    constructor
    · rintro ⟨a, ha⟩
      exact ⟨a, fun e he => ha e.endpoint (List.mem_map_of_mem _ he)⟩
    · rintro ⟨a, ha⟩
      refine ⟨a, fun x hx => ?_⟩
      obtain ⟨e, he, rfl⟩ := List.mem_map.mp hx
      exact ha e he
  · have h1 := endpoints_entropy_le _ hl
    have h2 := round6_le (x := endpoints_entropy (events.map SecurityEvent.endpoint))
    linarith

/-- C9 witness: a single event on a single endpoint. -/
theorem c9_entropy_bounds_witness :
    (([⟨"a", "ALLOW", 0⟩] : List SecurityEvent) ≠ [])
    ∧ 0 ≤ endpoints_entropy
        (([⟨"a", "ALLOW", 0⟩] : List SecurityEvent).map SecurityEvent.endpoint) :=
  ⟨by simp, (c9_entropy_bounds [⟨"a", "ALLOW", 0⟩] (by simp)).1⟩

/-- C10 witness: a saturated cell keeps its counter at the maximum. -/
theorem c10_rate_limiter_saturation_witness :
    ((1 : ℕ) ≤ 10 ∧ rlCount (some ⟨10, 60⟩) ≤ 10)
    ∧ rlCount (allow_request 10 60 (some ⟨10, 60⟩) 0).2 ≤ 10 :=
  ⟨⟨by norm_num, by norm_num [rlCount]⟩,
   (c10_rate_limiter_saturation 10 60 (by norm_num)).1 (some ⟨10, 60⟩) 0
     (by norm_num [rlCount])⟩

end SecGateway
